import Mathlib

/-!
Verification of the PlatariumWalletCLI messaging core.

Shallow embedding of the message-storage subsystem
(`src/messaging/messageStorage.js`) and the server-client subsystem
(`src/api/serverClient.js`).  Identities (wallet addresses) are modelled
as lists of characters; JavaScript string comparison (used by
`Array.prototype.sort` on two strings) is lexicographic comparison of
code units, modelled by `lexLe`.  Timestamps (`Date.now()` values and
message timestamps) are natural numbers passed explicitly.  The
filesystem directory of dialog files is modelled as an association list
from file name to dialog record.
-/

/-- A participant identity (wallet address): an opaque string. -/
abbrev Addr := List Char

/-- Lexicographic order on strings, as JavaScript compares strings
(code-unit by code-unit); `lexLe a b = true` iff `a <= b`. -/
def lexLe : Addr → Addr → Bool
  | [], _ => true
  | _ :: _, [] => false
  | c :: cs, d :: ds => if c = d then lexLe cs ds else decide (c < d)

theorem lexLe_total (a b : Addr) : lexLe a b = true ∨ lexLe b a = true := by
  induction a generalizing b with
  | nil => exact Or.inl rfl
  | cons c cs ih =>
    cases b with
    | nil => exact Or.inr rfl
    | cons d ds =>
      by_cases hcd : c = d
      · subst hcd
        rcases ih ds with h | h
        · exact Or.inl (by simp [lexLe, h])
        · exact Or.inr (by simp [lexLe, h])
      · rcases lt_or_gt_of_ne hcd with h | h
        · exact Or.inl (by simp [lexLe, hcd, h])
        · exact Or.inr (by simp [lexLe, Ne.symm hcd, h])

theorem lexLe_antisymm (a b : Addr) (hab : lexLe a b = true)
    (hba : lexLe b a = true) : a = b := by
  induction a generalizing b with
  | nil =>
    cases b with
    | nil => rfl
    | cons d ds => simp [lexLe] at hba
  | cons c cs ih =>
    cases b with
    | nil => simp [lexLe] at hab
    | cons d ds =>
      by_cases hcd : c = d
      · subst hcd
        simp only [lexLe, if_pos rfl] at hab hba
        exact congrArg (c :: ·) (ih ds hab hba)
      · simp only [lexLe, if_neg hcd, decide_eq_true_eq] at hab
        simp only [lexLe, if_neg (Ne.symm hcd), decide_eq_true_eq] at hba
        exact absurd (lt_trans hab hba) (lt_irrefl c)

/-- The sorted pair `[address1, address2].sort()` from `getDialogPath`. -/
def sortPair (a b : Addr) : Addr × Addr :=
  if lexLe a b then (a, b) else (b, a)

theorem sortPair_comm (a b : Addr) : sortPair a b = sortPair b a := by
  unfold sortPair
  by_cases hab : lexLe a b = true
  · by_cases hba : lexLe b a = true
    · have : a = b := lexLe_antisymm a b hab hba
      subst this
      simp
    · simp [hab, hba]
  · rcases lexLe_total a b with h | h
    · exact absurd h hab
    · simp [hab, h]

/-- A character kept unchanged by the sanitizing regex
`replace(/[^a-zA-Z0-9_]/g, '_')`. -/
def isSafeChar (c : Char) : Bool :=
  (decide ('a' ≤ c) && decide (c ≤ 'z')) ||
  (decide ('A' ≤ c) && decide (c ≤ 'Z')) ||
  (decide ('0' ≤ c) && decide (c ≤ '9')) ||
  decide (c = '_')

/-- Effect of the sanitizing regex on one character. -/
def sanitizeChar (c : Char) : Char :=
  if isSafeChar c then c else '_'

/-- The string built by `getDialogPath` before truncation:
`` `${addresses[0]}_${addresses[1]}`.replace(/[^a-zA-Z0-9_]/g, '_') ``. -/
def rawDialogId (address1 address2 : Addr) : List Char :=
  let addresses := sortPair address1 address2
  (addresses.1 ++ '_' :: addresses.2).map sanitizeChar

/-- The dialog id after the 200-character truncation step of
`getDialogPath`. -/
def dialogId (address1 address2 : Addr) : List Char :=
  let s := rawDialogId address1 address2
  if s.length > 200 then s.take 200 else s

/-- The dialog file name computed by `MessageStorage.getDialogPath`
(the constant directory prefix added by `path.join` is dropped: two
paths differ iff their file names differ). -/
def getDialogPath (address1 address2 : Addr) : List Char :=
  dialogId address1 address2 ++ (".json").toList

/-- C4: for all identities `x`, `y`, `getDialogPath(x, y) ==
getDialogPath(y, x)`: the order of the two arguments never affects the
computed storage key. -/
theorem getDialogPath_comm (x y : Addr) :
    getDialogPath x y = getDialogPath y x := by
  unfold getDialogPath dialogId rawDialogId
  rw [sortPair_comm]

/-- A character in the safe alphabet other than the separator `_`. -/
def isStrictAlnum (c : Char) : Bool :=
  (decide ('a' ≤ c) && decide (c ≤ 'z')) ||
  (decide ('A' ≤ c) && decide (c ≤ 'Z')) ||
  (decide ('0' ≤ c) && decide (c ≤ '9'))

theorem isStrictAlnum_safe {c : Char} (h : isStrictAlnum c = true) :
    isSafeChar c = true := by
  unfold isStrictAlnum at h
  unfold isSafeChar
  simp only [Bool.or_eq_true] at h ⊢
  tauto

theorem isStrictAlnum_ne_sep {c : Char} (h : isStrictAlnum c = true) :
    c ≠ '_' := by
  intro hc
  subst hc
  simp [isStrictAlnum] at h

theorem sanitize_map_id (l : List Char) (h : ∀ c ∈ l, isSafeChar c = true) :
    l.map sanitizeChar = l := by
  induction l with
  | nil => rfl
  | cons c cs ih =>
    have hc : isSafeChar c = true := h c (List.mem_cons_self c cs)
    simp only [List.map_cons, sanitizeChar, if_pos hc]
    exact congrArg (c :: ·) (ih fun d hd => h d (List.mem_cons_of_mem c hd))

theorem sep_append_inj (a1 : List Char) (b1 : List Char)
    (a2 : List Char) (b2 : List Char)
    (h1 : '_' ∉ a1) (h2 : '_' ∉ a2)
    (h : a1 ++ '_' :: b1 = a2 ++ '_' :: b2) : a1 = a2 ∧ b1 = b2 := by
  induction a1 generalizing a2 with
  | nil =>
    cases a2 with
    | nil =>
      simp only [List.nil_append, List.cons.injEq] at h
      exact ⟨rfl, h.2⟩
    | cons d ds =>
      simp only [List.nil_append, List.cons_append, List.cons.injEq] at h
      exact absurd (List.mem_cons_self d ds) (h.1 ▸ h2)
  | cons c cs ih =>
    cases a2 with
    | nil =>
      simp only [List.cons_append, List.nil_append, List.cons.injEq] at h
      exact absurd (List.mem_cons_self c cs) (h.1.symm ▸ h1)
    | cons d ds =>
      simp only [List.cons_append, List.cons.injEq] at h
      obtain ⟨hcd, hrest⟩ := h
      subst hcd
      obtain ⟨ha, hb⟩ := ih ds (fun hm => h1 (List.mem_cons_of_mem c hm))
        (fun hm => h2 (List.mem_cons_of_mem c hm)) hrest
      exact ⟨congrArg (c :: ·) ha, hb⟩

/-- C2 counterexample: the sorted pairs `("a", "b_c")` and
`("a_b", "c")` are distinct but map to the same dialog key, because the
separator `_` belongs to the safe alphabet itself: `getDialogPath` is
not injective on sorted pairs. -/
theorem getDialogPath_collision :
    lexLe "a".toList "b_c".toList = true ∧
    lexLe "a_b".toList "c".toList = true ∧
    ("a".toList, "b_c".toList) ≠ ("a_b".toList, "c".toList) ∧
    getDialogPath "a".toList "b_c".toList =
      getDialogPath "a_b".toList "c".toList := by
  exact ⟨by decide, by decide, by decide, by decide⟩

/-- C2 amended: on sorted pairs of identities drawn from the alphabet
`[a-zA-Z0-9]` (no separator and no sanitized characters) whose joined
key is at most 200 characters long (so truncation does not fire),
`getDialogPath` is injective. -/
theorem getDialogPath_inj (a1 b1 a2 b2 : Addr)
    (halnum1 : (a1 ++ b1).all isStrictAlnum = true)
    (halnum2 : (a2 ++ b2).all isStrictAlnum = true)
    (hs1 : lexLe a1 b1 = true) (hs2 : lexLe a2 b2 = true)
    (hl1 : a1.length + b1.length + 1 ≤ 200)
    (hl2 : a2.length + b2.length + 1 ≤ 200)
    (heq : getDialogPath a1 b1 = getDialogPath a2 b2) :
    a1 = a2 ∧ b1 = b2 := by
  simp only [List.all_eq_true, List.mem_append] at halnum1 halnum2
  have hsafe1 : ∀ c ∈ a1 ++ '_' :: b1, isSafeChar c = true := by
    intro c hc
    rcases List.mem_append.1 hc with hc | hc
    · exact isStrictAlnum_safe (halnum1 c (Or.inl hc))
    · rcases List.mem_cons.1 hc with hc | hc
      · subst hc; decide
      · exact isStrictAlnum_safe (halnum1 c (Or.inr hc))
  have hsafe2 : ∀ c ∈ a2 ++ '_' :: b2, isSafeChar c = true := by
    intro c hc
    rcases List.mem_append.1 hc with hc | hc
    · exact isStrictAlnum_safe (halnum2 c (Or.inl hc))
    · rcases List.mem_cons.1 hc with hc | hc
      · subst hc; decide
      · exact isStrictAlnum_safe (halnum2 c (Or.inr hc))
  have hraw1 : rawDialogId a1 b1 = a1 ++ '_' :: b1 := by
    unfold rawDialogId sortPair
    rw [if_pos hs1]
    exact sanitize_map_id _ hsafe1
  have hraw2 : rawDialogId a2 b2 = a2 ++ '_' :: b2 := by
    unfold rawDialogId sortPair
    rw [if_pos hs2]
    exact sanitize_map_id _ hsafe2
  have hlen1 : (rawDialogId a1 b1).length ≤ 200 := by
    rw [hraw1, List.length_append, List.length_cons]
    omega
  have hlen2 : (rawDialogId a2 b2).length ≤ 200 := by
    rw [hraw2, List.length_append, List.length_cons]
    omega
  have hid1 : dialogId a1 b1 = a1 ++ '_' :: b1 := by
    unfold dialogId
    rw [if_neg (by omega), hraw1]
  have hid2 : dialogId a2 b2 = a2 ++ '_' :: b2 := by
    unfold dialogId
    rw [if_neg (by omega), hraw2]
  unfold getDialogPath at heq
  have hkey : a1 ++ '_' :: b1 = a2 ++ '_' :: b2 := by
    have := List.append_cancel_right heq
    rwa [hid1, hid2] at this
  exact sep_append_inj a1 b1 a2 b2
    (fun hm => isStrictAlnum_ne_sep (halnum1 _ (Or.inl hm)) rfl)
    (fun hm => isStrictAlnum_ne_sep (halnum2 _ (Or.inl hm)) rfl)
    hkey

/-- C2 witness: the amended injectivity applied at the concrete sorted
pairs `("ab", "cd")` and `("ab", "cd")`. -/
theorem getDialogPath_inj_witness :
    ("ab".toList ++ "cd".toList).all isStrictAlnum = true ∧
    ("ab".toList = "ab".toList ∧ "cd".toList = "cd".toList) :=
  ⟨by decide,
    getDialogPath_inj "ab".toList "cd".toList "ab".toList "cd".toList
      (by decide) (by decide) (by decide) (by decide) (by decide)
      (by decide) rfl⟩

/-- A stored message record.  The JavaScript id is the string
`` `${timestamp}_${randomSuffix}` ``; it is modelled as the pair of its
two components.  `fromAddr` / `toAddr` model the `from` / `to` fields
(`from` is a reserved word in Lean). -/
structure Message where
  id : Nat × List Char
  fromAddr : Addr
  toAddr : Addr
  text : List Char
  timestamp : Nat
  read : Bool
deriving DecidableEq

/-- A dialog record as persisted in one dialog file. -/
structure Dialog where
  participants : List Addr
  messages : List Message
  createdAt : Nat
  updatedAt : Nat
deriving DecidableEq

/-- A contact entry of `contacts.json`. -/
structure Contact where
  address : Addr
  addedAt : Nat
  lastMessageAt : Nat
deriving DecidableEq

/-- The persistent state of `MessageStorage`: the `dialogs/` directory
as an association list from file name to parsed dialog record, and the
parsed `contacts.json` array. -/
structure StorageState where
  dialogs : List (List Char × Dialog)
  contacts : List Contact
deriving DecidableEq

/-- Reading the file named `k` from the dialogs directory. -/
def lookupDialog (dialogs : List (List Char × Dialog)) (k : List Char) :
    Option Dialog :=
  match dialogs with
  | [] => none
  | (k0, d) :: rest => if k0 = k then some d else lookupDialog rest k

/-- Writing the file named `k`: overwrite the existing record, or
create a new file (appended at the end of the directory listing). -/
def upsertDialog (dialogs : List (List Char × Dialog)) (k : List Char)
    (d : Dialog) : List (List Char × Dialog) :=
  match dialogs with
  | [] => [(k, d)]
  | (k0, d0) :: rest =>
    if k0 = k then (k, d) :: rest else (k0, d0) :: upsertDialog rest k d

/-- The file name `saveDialog` writes to:
`getDialogPath(dialog.participants[0], dialog.participants[1])`. -/
def dialogKeyOf (d : Dialog) : List Char :=
  getDialogPath (d.participants.getD 0 []) (d.participants.getD 1 [])

/-- `MessageStorage.saveDialog`: sets `updatedAt = Date.now()` and
writes the record under its participants key. -/
def saveDialog (dialogs : List (List Char × Dialog)) (d : Dialog)
    (now : Nat) : List (List Char × Dialog) :=
  let d2 := { d with updatedAt := now }
  upsertDialog dialogs (dialogKeyOf d2) d2

/-- The fresh dialog record created by `getDialog` when no file exists:
for a self-dialog both copies of the address are kept, otherwise the
sorted pair. -/
def newDialog (address1 address2 : Addr) (now : Nat) : Dialog :=
  let participants :=
    if address1 = address2 then [address1, address2]
    else
      let p := sortPair address1 address2
      [p.1, p.2]
  { participants := participants, messages := [], createdAt := now,
    updatedAt := now }

/-- `MessageStorage.getDialog`: return the parsed record when the
dialog file exists, otherwise create, persist and return a fresh empty
dialog.  Returns the dialog together with the updated directory. -/
def getDialog (dialogs : List (List Char × Dialog))
    (address1 address2 : Addr) (now : Nat) :
    Dialog × List (List Char × Dialog) :=
  let dialogPath := getDialogPath address1 address2
  match lookupDialog dialogs dialogPath with
  | some d => (d, dialogs)
  | none =>
    let d := newDialog address1 address2 now
    (d, saveDialog dialogs d now)

/-- Update the first contact entry carrying `addr` with a new
`lastMessageAt` (the entry `contacts.find(c => c.address === addr)`
resolves to). -/
def touchFirst (contacts : List Contact) (addr : Addr) (now : Nat) :
    List Contact :=
  match contacts with
  | [] => []
  | c :: cs =>
    if c.address = addr then { c with lastMessageAt := now } :: cs
    else c :: touchFirst cs addr now

/-- One iteration of the `for (const addr of addresses)` loop of
`updateContacts`: push a fresh entry when absent, else touch
`lastMessageAt` on the existing entry. -/
def touchContact (contacts : List Contact) (addr : Addr) (now : Nat) :
    List Contact :=
  if contacts.any (fun c => decide (c.address = addr)) then
    touchFirst contacts addr now
  else
    contacts ++ [{ address := addr, addedAt := now, lastMessageAt := now }]

/-- `MessageStorage.updateContacts`: both addresses are created or
touched, first `address1` then `address2`. -/
def updateContacts (contacts : List Contact) (address1 address2 : Addr)
    (now : Nat) : List Contact :=
  touchContact (touchContact contacts address1 now) address2 now

/-- `MessageStorage.addMessage`: load or create the dialog, append the
new message, persist the dialog, update the contact directory.  `rnd`
is the random id suffix, `now` the ambient `Date.now()`. -/
def addMessage (s : StorageState) (fromAddr toAddr : Addr)
    (text : List Char) (timestamp : Nat) (rnd : List Char) (now : Nat) :
    Message × StorageState :=
  let dg := getDialog s.dialogs fromAddr toAddr now
  let message : Message :=
    { id := (timestamp, rnd), fromAddr := fromAddr, toAddr := toAddr,
      text := text, timestamp := timestamp, read := false }
  let dialog2 := { dg.1 with messages := dg.1.messages ++ [message] }
  let dialogs2 := saveDialog dg.2 dialog2 now
  let contacts2 := updateContacts s.contacts fromAddr toAddr now
  (message, { dialogs := dialogs2, contacts := contacts2 })

/-- Comparator of the message sort in `getMessages`:
`(a, b) => (a.timestamp || 0) - (b.timestamp || 0)` (timestamps are
naturals in the model, so the `|| 0` guard is the identity). -/
def msgLe (a b : Message) : Prop := a.timestamp ≤ b.timestamp

instance : DecidableRel msgLe := fun a b => Nat.decLe a.timestamp b.timestamp

instance : IsTotal Message msgLe := ⟨fun a b => Nat.le_total a.timestamp b.timestamp⟩

instance : IsTrans Message msgLe := ⟨fun _ _ _ => Nat.le_trans⟩

/-- `MessageStorage.getMessages`: sort the dialog's messages ascending
by timestamp (a stable sort, as `Array.prototype.sort`) and return
`sortedMessages.slice(-limit)`.  JavaScript `slice(-0)` is `slice(0)`:
with `limit = 0` the whole array is returned. -/
def getMessages (s : StorageState) (address1 address2 : Addr)
    (limit : Nat) (now : Nat) : List Message × StorageState :=
  let dg := getDialog s.dialogs address1 address2 now
  let sortedMessages := List.insertionSort msgLe dg.1.messages
  let res :=
    if limit = 0 then sortedMessages
    else sortedMessages.drop (sortedMessages.length - limit)
  (res, { s with dialogs := dg.2 })

/-- `getMessages` with the `limit = 50` default parameter omitted. -/
def getMessagesDefault (s : StorageState) (address1 address2 : Addr)
    (now : Nat) : List Message × StorageState :=
  getMessages s address1 address2 50 now

/-- `MessageStorage.markAsRead`: flip `read` on every message addressed
to `currentAddress`, persisting only when at least one flip occurred. -/
def markAsRead (s : StorageState) (address1 address2 currentAddress : Addr)
    (now : Nat) : StorageState :=
  let dg := getDialog s.dialogs address1 address2 now
  let updated := dg.1.messages.any
    (fun m => decide (m.toAddr = currentAddress) && !m.read)
  let newMessages := dg.1.messages.map
    (fun m =>
      if decide (m.toAddr = currentAddress) && !m.read then
        { m with read := true }
      else m)
  if updated then
    { s with dialogs := saveDialog dg.2 { dg.1 with messages := newMessages } now }
  else
    { s with dialogs := dg.2 }

/-- The first-occurrence deduplication `[...new Set(array)]` used on
the participants list. -/
def jsUniqueAux (seen : List Addr) : List Addr → List Addr
  | [] => []
  | x :: xs =>
    if x ∈ seen then jsUniqueAux seen xs
    else x :: jsUniqueAux (x :: seen) xs

/-- First-occurrence-order set of a list, as `[...new Set(l)]`. -/
def jsUnique (l : List Addr) : List Addr := jsUniqueAux [] l

/-- One element of the array returned by `getDialogs`: the spread
dialog record plus the three computed fields. -/
structure DialogView where
  dialog : Dialog
  otherParticipant : Addr
  lastMessage : Option Message
  unreadCount : Nat
deriving DecidableEq

/-- Activity timestamp used by the `getDialogs` comparator:
`a.lastMessage ? a.lastMessage.timestamp : a.updatedAt`. -/
def viewTime (v : DialogView) : Nat :=
  match v.lastMessage with
  | some m => m.timestamp
  | none => v.dialog.updatedAt

/-- Descending comparator `(a, b) => bTime - aTime` of `getDialogs`. -/
def viewGe (a b : DialogView) : Prop := viewTime b ≤ viewTime a

instance : DecidableRel viewGe := fun a b => Nat.decLe (viewTime b) (viewTime a)

instance : IsTotal DialogView viewGe := ⟨fun a b => Nat.le_total (viewTime b) (viewTime a)⟩

instance : IsTrans DialogView viewGe := ⟨fun _ _ _ h1 h2 => Nat.le_trans h2 h1⟩

/-- The body of the `for (const file of files)` loop of `getDialogs`
for one parsed dialog record: `none` when the record is filtered out,
`some view` when an entry is pushed.  JavaScript truthiness of an
identity string is non-emptiness. -/
def mkDialogView (address : Addr) (dialog : Dialog) : Option DialogView :=
  if address ∈ dialog.participants then
    let found := dialog.participants.find?
      (fun p => !p.isEmpty && decide (p ≠ address))
    let other : Option Addr :=
      match found with
      | some p => some p
      | none =>
        let uniqueParticipants := jsUnique dialog.participants
        if uniqueParticipants.length = 1 ∧
            uniqueParticipants.getD 0 [] = address then
          some address
        else none
    let lastMessage := dialog.messages.getLast?
    let pushCond :=
      (match other with
        | some p => !p.isEmpty
        | none => false) ||
      (!dialog.participants.isEmpty &&
        decide (dialog.participants.getD 0 [] = address))
    if pushCond then
      some
        { dialog := dialog
          otherParticipant :=
            match other with
            | some p => if p.isEmpty then address else p
            | none => address
          lastMessage := lastMessage
          unreadCount := (dialog.messages.filter
            (fun m => decide (m.toAddr = address) && !m.read)).length }
    else none
  else none

/-- `MessageStorage.getDialogs`: scan every record of the dialogs
directory, keep those naming `address` as a participant, and sort the
views most-recent-activity first (stable sort, as
`Array.prototype.sort`).  Corrupted files are skipped, so the directory
is modelled as holding only parsed records. -/
def getDialogs (s : StorageState) (address : Addr) : List DialogView :=
  let views := s.dialogs.filterMap (fun kv => mkDialogView address kv.2)
  List.insertionSort viewGe views

/-- `MessageStorage.getContacts`. -/
def getContacts (s : StorageState) : List Contact := s.contacts

/-- `MessageStorage.getUnreadCount`. -/
def getUnreadCount (s : StorageState) (address : Addr) : Nat :=
  (getDialogs s address).foldl (fun total dialog => total + dialog.unreadCount) 0

theorem sliceLast_spec (l : List Message) (limit : Nat) :
    let sorted := List.insertionSort msgLe l
    let res := sorted.drop (sorted.length - limit)
    res.Sorted msgLe ∧
    res.length = min limit l.length ∧
    ∃ dropped : List Message,
      dropped ++ res = sorted ∧
      ∀ x ∈ dropped, ∀ y ∈ res, x.timestamp ≤ y.timestamp := by
  intro sorted res
  have hsorted : sorted.Sorted msgLe := List.sorted_insertionSort msgLe l
  have hperm : sorted.Perm l := List.perm_insertionSort msgLe l
  have hlen : sorted.length = l.length := hperm.length_eq
  refine ⟨List.Pairwise.sublist (List.drop_sublist _ _) hsorted, ?_, ?_⟩
  · rw [List.length_drop, hlen]
    omega
  · refine ⟨sorted.take (sorted.length - limit),
      List.take_append_drop _ _, ?_⟩
    have hpw := hsorted
    rw [← List.take_append_drop (sorted.length - limit) sorted] at hpw
    exact fun x hx y hy => (List.pairwise_append.1 hpw).2.2 x hx y hy

/-- C8 (amended to positive limits): for every `limit ≥ 1`,
`getMessages` returns the dialog's messages sorted ascending by
timestamp and truncated to the most recent `min limit n` of them (every
dropped message has a timestamp less than or equal to every returned
one), and the omitted-argument form defaults to `limit = 50`. -/
theorem getMessages_sorted_truncated (s : StorageState) (a b : Addr)
    (limit now : Nat) (hpos : 1 ≤ limit) :
    ((getMessages s a b limit now).1.Sorted msgLe ∧
      (getMessages s a b limit now).1.length =
        min limit (getDialog s.dialogs a b now).1.messages.length ∧
      ∃ dropped : List Message,
        (dropped ++ (getMessages s a b limit now).1).Perm
          (getDialog s.dialogs a b now).1.messages ∧
        ∀ x ∈ dropped, ∀ y ∈ (getMessages s a b limit now).1,
          x.timestamp ≤ y.timestamp) ∧
    getMessagesDefault s a b now = getMessages s a b 50 now := by
  have hne : limit ≠ 0 := by omega
  have hres : (getMessages s a b limit now).1 =
      (List.insertionSort msgLe (getDialog s.dialogs a b now).1.messages).drop
        ((List.insertionSort msgLe (getDialog s.dialogs a b now).1.messages).length
          - limit) := by
    simp [getMessages, hne]
  obtain ⟨h1, h2, dropped, hd, hcmp⟩ :=
    sliceLast_spec (getDialog s.dialogs a b now).1.messages limit
  refine ⟨⟨?_, ?_, dropped, ?_, ?_⟩, rfl⟩
  · rw [hres]; exact h1
  · rw [hres]; exact h2
  · rw [hres, hd]
    exact List.perm_insertionSort msgLe _
  · rw [hres]; exact hcmp

/-- Concrete one-message store for exercising `getMessages`. -/
def c8A : Addr := ['A']

/-- Concrete peer address. -/
def c8B : Addr := ['B']

/-- Concrete stored message. -/
def c8M : Message :=
  { id := (4, []), fromAddr := c8A, toAddr := c8B, text := ['h'],
    timestamp := 4, read := false }

/-- Concrete stored dialog holding one message. -/
def c8Dialog : Dialog :=
  { participants := [c8A, c8B], messages := [c8M], createdAt := 0,
    updatedAt := 1 }

/-- Concrete storage state holding `c8Dialog`. -/
def c8Store : StorageState :=
  { dialogs := [(getDialogPath c8A c8B, c8Dialog)], contacts := [] }

/-- C8 counterexample: with `limit = 0` the claim demands zero returned
messages, but `sortedMessages.slice(-0)` is `slice(0)`: the code
returns the whole message list. -/
theorem getMessages_limit_zero :
    (getMessages c8Store c8A c8B 0 0).1 = [c8M] ∧
    (getMessages c8Store c8A c8B 0 0).1.length = 1 ∧
    ¬ (getMessages c8Store c8A c8B 0 0).1.length =
        min 0 c8Dialog.messages.length := by
  exact ⟨by decide, by decide, by decide⟩

/-- C8 witness: the truncation spec applied at the concrete store with
`limit = 1`. -/
theorem getMessages_sorted_truncated_witness :
    (1 : Nat) ≤ 1 ∧
    (getMessages c8Store c8A c8B 1 0).1.length =
      min 1 (getDialog c8Store.dialogs c8A c8B 0).1.messages.length :=
  ⟨by decide,
    (getMessages_sorted_truncated c8Store c8A c8B 1 0 (by decide)).1.2.1⟩

theorem mkDialogView_fields (address : Addr) (d : Dialog) (v : DialogView)
    (h : mkDialogView address d = some v) :
    v.dialog = d ∧ v.lastMessage = d.messages.getLast? := by
  unfold mkDialogView at h
  split at h
  · dsimp only at h
    split at h
    · split at h
      · injection h with h
        subst h
        exact ⟨rfl, rfl⟩
      · simp at h
    · split at h
      · injection h with h
        subst h
        exact ⟨rfl, rfl⟩
      · simp at h
  · simp at h

/-- C3 amended: for every address and every stored set of dialog
records, `getDialogs` reports as each dialog's last message the final
element of the dialog's stored message sequence (equal to the
greatest-timestamp message only when the stored sequence is in
timestamp order), and returns the dialogs ordered descending by that
element's timestamp, using the dialog's `updatedAt` when it has no
messages. -/
theorem getDialogs_last_stored_sorted (s : StorageState) (address : Addr) :
    (∀ v ∈ getDialogs s address,
      v.lastMessage = v.dialog.messages.getLast?) ∧
    (getDialogs s address).Sorted viewGe := by
  constructor
  · intro v hv
    have hv2 : v ∈ s.dialogs.filterMap (fun kv => mkDialogView address kv.2) :=
      ((List.perm_insertionSort viewGe _).mem_iff).1 hv
    obtain ⟨kv, _, hkv⟩ := List.mem_filterMap.1 hv2
    obtain ⟨hdlg, hlast⟩ := mkDialogView_fields address kv.2 v hkv
    rw [hlast, hdlg]
  · exact List.sorted_insertionSort viewGe _

/-- Concrete address for the `getDialogs` counterexample. -/
def c3A : Addr := ['A']

/-- Concrete peer address for the `getDialogs` counterexample. -/
def c3B : Addr := ['B']

/-- A stored message with the greatest timestamp, stored first. -/
def c3M1 : Message :=
  { id := (5, []), fromAddr := c3B, toAddr := c3A, text := ['x'],
    timestamp := 5, read := true }

/-- A stored message with a smaller timestamp, stored last. -/
def c3M2 : Message :=
  { id := (3, []), fromAddr := c3A, toAddr := c3B, text := ['y'],
    timestamp := 3, read := true }

/-- A dialog whose stored message order is not timestamp order. -/
def c3Dialog : Dialog :=
  { participants := [c3A, c3B], messages := [c3M1, c3M2], createdAt := 0,
    updatedAt := 10 }

/-- Storage state holding exactly `c3Dialog`. -/
def c3Store : StorageState :=
  { dialogs := [(getDialogPath c3A c3B, c3Dialog)], contacts := [] }

/-- C3 counterexample: the dialog stores messages with timestamps
`[5, 3]` in that order; `getDialogs` reports the last array element
(timestamp 3) as the dialog's last message even though a stored message
with timestamp 5 exists, so the reported last message is not the
greatest-timestamp message. -/
theorem getDialogs_lastMessage_not_max :
    getDialogs c3Store c3A =
      [{ dialog := c3Dialog, otherParticipant := c3B,
         lastMessage := some c3M2, unreadCount := 0 }] ∧
    c3M1 ∈ c3Dialog.messages ∧ c3M2.timestamp < c3M1.timestamp := by
  exact ⟨by decide, by decide, by decide⟩

/-- C3 witness: the amended description applied at the concrete store:
the reported last message is the final stored element and the result is
sorted. -/
theorem getDialogs_last_stored_sorted_witness :
    (∀ v ∈ getDialogs c3Store c3A,
      v.lastMessage = v.dialog.messages.getLast?) ∧
    (getDialogs c3Store c3A).Sorted viewGe :=
  getDialogs_last_stored_sorted c3Store c3A

/-- Number of contact entries carrying a given address. -/
def contactCount (contacts : List Contact) (a : Addr) : Nat :=
  (contacts.filter (fun c => decide (c.address = a))).length

theorem contactCount_cons (c : Contact) (cs : List Contact) (a : Addr) :
    contactCount (c :: cs) a =
      (if c.address = a then 1 else 0) + contactCount cs a := by
  unfold contactCount
  rw [List.filter_cons]
  by_cases h : c.address = a
  · simp [h]
    omega
  · simp [h]

theorem contactCount_append (cs ds : List Contact) (a : Addr) :
    contactCount (cs ++ ds) a = contactCount cs a + contactCount ds a := by
  simp [contactCount, List.filter_append]

theorem contactCount_pos_iff_any (cs : List Contact) (a : Addr) :
    0 < contactCount cs a ↔
      cs.any (fun c => decide (c.address = a)) = true := by
  induction cs with
  | nil => simp [contactCount]
  | cons c cs ih =>
    rw [contactCount_cons]
    by_cases h : c.address = a
    · simp [h]
    · simp [h, ih]

theorem contactCount_touchFirst (cs : List Contact) (addr a : Addr)
    (now : Nat) :
    contactCount (touchFirst cs addr now) a = contactCount cs a := by
  induction cs with
  | nil => rfl
  | cons c cs ih =>
    unfold touchFirst
    by_cases h : c.address = addr
    · simp only [if_pos h]
      rw [contactCount_cons, contactCount_cons]
    · simp only [if_neg h]
      rw [contactCount_cons, contactCount_cons, ih]

theorem length_touchFirst (cs : List Contact) (addr : Addr) (now : Nat) :
    (touchFirst cs addr now).length = cs.length := by
  induction cs with
  | nil => rfl
  | cons c cs ih =>
    unfold touchFirst
    by_cases h : c.address = addr
    · simp [h]
    · simp [h, ih]

theorem contactCount_touchContact_ne (cs : List Contact) (addr a : Addr)
    (now : Nat) (h : a ≠ addr) :
    contactCount (touchContact cs addr now) a = contactCount cs a := by
  unfold touchContact
  split
  · exact contactCount_touchFirst cs addr a now
  · rw [contactCount_append, contactCount_cons]
    simp [Ne.symm h, contactCount]

theorem contactCount_touchContact_self (cs : List Contact) (addr : Addr)
    (now : Nat) :
    contactCount (touchContact cs addr now) addr =
      if 0 < contactCount cs addr then contactCount cs addr else 1 := by
  unfold touchContact
  by_cases hany : cs.any (fun c => decide (c.address = addr)) = true
  · rw [if_pos hany, contactCount_touchFirst,
      if_pos ((contactCount_pos_iff_any cs addr).2 hany)]
  · rw [if_neg hany, contactCount_append, contactCount_cons]
    have hnp : ¬ 0 < contactCount cs addr := fun hp =>
      hany ((contactCount_pos_iff_any cs addr).1 hp)
    rw [if_neg hnp]
    have hz : contactCount cs addr = 0 := by omega
    rw [hz]
    simp [contactCount]

theorem contactCount_touchContact_le_one (cs : List Contact)
    (addr a : Addr) (now : Nat) (h : contactCount cs a ≤ 1) :
    contactCount (touchContact cs addr now) a ≤ 1 := by
  by_cases hne : a = addr
  · subst hne
    rw [contactCount_touchContact_self]
    split <;> omega
  · rw [contactCount_touchContact_ne cs addr a now hne]
    exact h

theorem contactCount_touchContact_pos (cs : List Contact) (addr : Addr)
    (now : Nat) :
    0 < contactCount (touchContact cs addr now) addr := by
  rw [contactCount_touchContact_self]
  split <;> omega

theorem contactCount_touchContact_pos_mono (cs : List Contact)
    (addr a : Addr) (now : Nat) (h : 0 < contactCount cs a) :
    0 < contactCount (touchContact cs addr now) a := by
  by_cases hne : a = addr
  · subst hne
    exact contactCount_touchContact_pos cs a now
  · rw [contactCount_touchContact_ne cs addr a now hne]
    exact h

theorem length_touchContact_present (cs : List Contact) (addr : Addr)
    (now : Nat) (h : 0 < contactCount cs addr) :
    (touchContact cs addr now).length = cs.length := by
  unfold touchContact
  rw [if_pos ((contactCount_pos_iff_any cs addr).1 h)]
  exact length_touchFirst cs addr now

theorem touchFirst_mem_touched (cs : List Contact) (addr : Addr)
    (now : Nat) (h : 0 < contactCount cs addr) :
    ∃ c ∈ touchFirst cs addr now, c.address = addr ∧
      c.lastMessageAt = now := by
  induction cs with
  | nil => simp [contactCount] at h
  | cons c cs ih =>
    unfold touchFirst
    by_cases hc : c.address = addr
    · refine ⟨{ c with lastMessageAt := now }, ?_, hc, rfl⟩
      rw [if_pos hc]
      exact List.mem_cons_self _ _
    · rw [contactCount_cons, if_neg hc] at h
      obtain ⟨d, hd, hprop⟩ := ih (by omega)
      refine ⟨d, ?_, hprop⟩
      rw [if_neg hc]
      exact List.mem_cons_of_mem c hd

theorem touchContact_mem_touched (cs : List Contact) (addr : Addr)
    (now : Nat) :
    ∃ c ∈ touchContact cs addr now, c.address = addr ∧
      c.lastMessageAt = now := by
  unfold touchContact
  by_cases hany : cs.any (fun c => decide (c.address = addr)) = true
  · rw [if_pos hany]
    exact touchFirst_mem_touched cs addr now
      ((contactCount_pos_iff_any cs addr).2 hany)
  · rw [if_neg hany]
    exact ⟨{ address := addr, addedAt := now, lastMessageAt := now },
      List.mem_append_right _ (List.mem_cons_self _ _), rfl, rfl⟩

theorem filter_touchFirst_ne (cs : List Contact) (addr a : Addr)
    (now : Nat) (h : a ≠ addr) :
    (touchFirst cs addr now).filter (fun c => decide (c.address = a)) =
      cs.filter (fun c => decide (c.address = a)) := by
  induction cs with
  | nil => rfl
  | cons c cs ih =>
    unfold touchFirst
    by_cases hc : c.address = addr
    · rw [if_pos hc]
      have hca : ¬ c.address = a := fun hca => h (by rw [← hca, hc])
      rw [List.filter_cons, List.filter_cons]
      simp [hca]
    · rw [if_neg hc, List.filter_cons, List.filter_cons]
      by_cases hca : c.address = a
      · simp [hca, ih]
      · simp [hca, ih]

theorem filter_touchContact_ne (cs : List Contact) (addr a : Addr)
    (now : Nat) (h : a ≠ addr) :
    (touchContact cs addr now).filter (fun c => decide (c.address = a)) =
      cs.filter (fun c => decide (c.address = a)) := by
  unfold touchContact
  split
  · exact filter_touchFirst_ne cs addr a now h
  · rw [List.filter_append]
    simp [Ne.symm h]

/-- C7: calling `addMessage` twice for the same pair leaves at most one
contact entry per address: starting from a directory with at most one
entry per address, the second call leaves the directory length
unchanged (no entry is appended), both addresses have exactly one
entry, and those entries carry the second call's `lastMessageAt`. -/
theorem addMessage_contacts_once (s : StorageState) (f t : Addr)
    (text1 text2 : List Char) (ts1 ts2 : Nat) (rnd1 rnd2 : List Char)
    (now1 now2 : Nat)
    (h : ∀ a, contactCount s.contacts a ≤ 1) :
    (∀ a, contactCount
      (addMessage (addMessage s f t text1 ts1 rnd1 now1).2
        f t text2 ts2 rnd2 now2).2.contacts a ≤ 1) ∧
    contactCount (addMessage (addMessage s f t text1 ts1 rnd1 now1).2
      f t text2 ts2 rnd2 now2).2.contacts f = 1 ∧
    contactCount (addMessage (addMessage s f t text1 ts1 rnd1 now1).2
      f t text2 ts2 rnd2 now2).2.contacts t = 1 ∧
    (addMessage (addMessage s f t text1 ts1 rnd1 now1).2
      f t text2 ts2 rnd2 now2).2.contacts.length =
      (addMessage s f t text1 ts1 rnd1 now1).2.contacts.length ∧
    (∃ c ∈ (addMessage (addMessage s f t text1 ts1 rnd1 now1).2
      f t text2 ts2 rnd2 now2).2.contacts,
      c.address = f ∧ c.lastMessageAt = now2) ∧
    (∃ c ∈ (addMessage (addMessage s f t text1 ts1 rnd1 now1).2
      f t text2 ts2 rnd2 now2).2.contacts,
      c.address = t ∧ c.lastMessageAt = now2) := by
  have e1 : (addMessage s f t text1 ts1 rnd1 now1).2.contacts =
      updateContacts s.contacts f t now1 := rfl
  have e2 : (addMessage (addMessage s f t text1 ts1 rnd1 now1).2
      f t text2 ts2 rnd2 now2).2.contacts =
      updateContacts (updateContacts s.contacts f t now1) f t now2 := rfl
  rw [e1, e2]
  unfold updateContacts
  have hf1 : 0 < contactCount
      (touchContact (touchContact s.contacts f now1) t now1) f :=
    contactCount_touchContact_pos_mono _ t f now1
      (contactCount_touchContact_pos s.contacts f now1)
  have ht1 : 0 < contactCount
      (touchContact (touchContact s.contacts f now1) t now1) t :=
    contactCount_touchContact_pos _ t now1
  have hle1 : ∀ a, contactCount
      (touchContact (touchContact s.contacts f now1) t now1) a ≤ 1 :=
    fun a => contactCount_touchContact_le_one _ t a now1
      (contactCount_touchContact_le_one _ f a now1 (h a))
  have hle2 : ∀ a, contactCount
      (touchContact (touchContact
        (touchContact (touchContact s.contacts f now1) t now1) f now2)
        t now2) a ≤ 1 :=
    fun a => contactCount_touchContact_le_one _ t a now2
      (contactCount_touchContact_le_one _ f a now2 (hle1 a))
  have hf2 : 0 < contactCount
      (touchContact (touchContact
        (touchContact (touchContact s.contacts f now1) t now1) f now2)
        t now2) f :=
    contactCount_touchContact_pos_mono _ t f now2
      (contactCount_touchContact_pos _ f now2)
  have ht2 : 0 < contactCount
      (touchContact (touchContact
        (touchContact (touchContact s.contacts f now1) t now1) f now2)
        t now2) t :=
    contactCount_touchContact_pos _ t now2
  refine ⟨hle2, ?_, ?_, ?_, ?_, ?_⟩
  · have := hle2 f
    omega
  · have := hle2 t
    omega
  · rw [length_touchContact_present _ t now2
      (contactCount_touchContact_pos_mono _ f t now2 ht1),
      length_touchContact_present _ f now2 hf1]
  · by_cases hft : f = t
    · subst hft
      exact touchContact_mem_touched _ f now2
    · obtain ⟨c, hc, haddr, hlast⟩ := touchContact_mem_touched
        (touchContact (touchContact s.contacts f now1) t now1) f now2
      refine ⟨c, ?_, haddr, hlast⟩
      have hcf : c ∈ (touchContact (touchContact
          (touchContact s.contacts f now1) t now1) f now2).filter
          (fun d => decide (d.address = f)) :=
        List.mem_filter.2 ⟨hc, by simp [haddr]⟩
      have := filter_touchContact_ne (touchContact (touchContact
          (touchContact s.contacts f now1) t now1) f now2) t f now2 hft
      rw [← this] at hcf
      exact (List.mem_filter.1 hcf).1
  · exact touchContact_mem_touched _ t now2

/-- Concrete empty storage state for exercising the contact
directory. -/
def c7Store : StorageState := { dialogs := [], contacts := [] }

/-- C7 witness: two concrete `addMessage` calls for the pair
`("A", "B")` leave exactly one contact entry for the sender. -/
theorem addMessage_contacts_once_witness :
    contactCount (addMessage (addMessage c7Store ['A'] ['B']
      ['h'] 1 [] 1).2 ['A'] ['B'] ['i'] 2 [] 2).2.contacts ['A'] = 1 :=
  (addMessage_contacts_once c7Store ['A'] ['B'] ['h'] ['i'] 1 2 [] []
    1 2 (fun a => by simp [c7Store, contactCount])).2.1

theorem sortPair_idem (a b : Addr) :
    sortPair (sortPair a b).1 (sortPair a b).2 = sortPair a b := by
  unfold sortPair
  by_cases hab : lexLe a b = true
  · simp [hab]
  · rcases lexLe_total a b with h | h
    · exact absurd h hab
    · simp [hab, h]

theorem getDialogPath_sortPair (a b : Addr) :
    getDialogPath (sortPair a b).1 (sortPair a b).2 = getDialogPath a b := by
  unfold getDialogPath dialogId rawDialogId
  rw [sortPair_idem]

theorem dialogKeyOf_newDialog (a b : Addr) (now : Nat) :
    dialogKeyOf (newDialog a b now) = getDialogPath a b := by
  unfold dialogKeyOf newDialog
  by_cases hab : a = b
  · subst hab
    simp
  · simp only [if_neg hab]
    exact getDialogPath_sortPair a b

theorem dialog_set_updatedAt (d : Dialog) (now : Nat)
    (h : d.updatedAt = now) : { d with updatedAt := now } = d := by
  cases d
  subst h
  rfl

theorem lookup_upsert_self (dialogs : List (List Char × Dialog))
    (k : List Char) (d : Dialog) :
    lookupDialog (upsertDialog dialogs k d) k = some d := by
  induction dialogs with
  | nil => simp [upsertDialog, lookupDialog]
  | cons kv rest ih =>
    obtain ⟨k0, d0⟩ := kv
    unfold upsertDialog
    by_cases hk : k0 = k
    · simp [hk, lookupDialog]
    · simp only [if_neg hk]
      unfold lookupDialog
      rw [if_neg hk]
      exact ih

theorem mem_upsert_self (dialogs : List (List Char × Dialog))
    (k : List Char) (d : Dialog) :
    (k, d) ∈ upsertDialog dialogs k d := by
  induction dialogs with
  | nil => exact List.mem_singleton.2 rfl
  | cons kv rest ih =>
    obtain ⟨k0, d0⟩ := kv
    unfold upsertDialog
    by_cases hk : k0 = k
    · rw [if_pos hk]
      exact List.mem_cons_self _ _
    · rw [if_neg hk]
      exact List.mem_cons_of_mem _ ih

theorem getDialog_absent (dialogs : List (List Char × Dialog))
    (a b : Addr) (now : Nat)
    (h : lookupDialog dialogs (getDialogPath a b) = none) :
    getDialog dialogs a b now =
      (newDialog a b now,
        upsertDialog dialogs (getDialogPath a b) (newDialog a b now)) := by
  unfold getDialog
  dsimp only
  rw [h]
  unfold saveDialog
  dsimp only
  rw [dialog_set_updatedAt (newDialog a b now) now (by simp [newDialog]),
    dialogKeyOf_newDialog]

/-- C10: when no dialog record exists for a pair, the read-looking
operations `getMessages` and `markAsRead` create and persist a fresh
empty dialog record for the pair as a side effect; `getMessages`
returns the empty list and neither operation fails. -/
theorem getMessages_markAsRead_create (s : StorageState) (a b cur : Addr)
    (limit now : Nat)
    (h : lookupDialog s.dialogs (getDialogPath a b) = none) :
    (getMessages s a b limit now).1 = [] ∧
    lookupDialog (getMessages s a b limit now).2.dialogs
      (getDialogPath a b) = some (newDialog a b now) ∧
    lookupDialog (markAsRead s a b cur now).dialogs
      (getDialogPath a b) = some (newDialog a b now) := by
  have hg := getDialog_absent s.dialogs a b now h
  refine ⟨?_, ?_, ?_⟩
  · unfold getMessages
    rw [hg]
    simp [newDialog]
  · unfold getMessages
    rw [hg]
    exact lookup_upsert_self s.dialogs (getDialogPath a b) (newDialog a b now)
  · unfold markAsRead
    rw [hg]
    simp only [newDialog, List.any_nil]
    exact lookup_upsert_self s.dialogs (getDialogPath a b) (newDialog a b now)

/-- C10 witness: on the empty store, `getMessages` for a fresh pair
returns no messages and persists the new empty dialog. -/
theorem getMessages_markAsRead_create_witness :
    (getMessages c7Store ['A'] ['B'] 50 0).1 = [] ∧
    lookupDialog (markAsRead c7Store ['A'] ['B'] ['A'] 0).dialogs
      (getDialogPath ['A'] ['B']) = some (newDialog ['A'] ['B'] 0) :=
  ⟨(getMessages_markAsRead_create c7Store ['A'] ['B'] ['A'] 50 0
      (by decide)).1,
    (getMessages_markAsRead_create c7Store ['A'] ['B'] ['A'] 50 0
      (by decide)).2.2⟩

theorem mkDialogView_self (A : Addr) (d : Dialog)
    (hp : d.participants = [A, A]) (hm : d.messages = []) :
    mkDialogView A d =
      some { dialog := d, otherParticipant := A, lastMessage := none,
             unreadCount := 0 } := by
  unfold mkDialogView
  rw [hp, hm]
  have hfind : List.find? (fun p => !p.isEmpty && decide (p ≠ A)) [A, A]
      = none := by
    simp [List.find?]
  rw [hfind]
  have hjs : jsUnique [A, A] = [A] := by
    simp [jsUnique, jsUniqueAux]
  rw [hjs]
  simp

/-- C9: for every identity `A`, creating the self-dialog via
`getDialog(A, A)` yields a participants list `[A, A]` (two elements,
not one), and the persisted self-dialog appears in `getDialogs(A)`
with `otherParticipant` equal to `A`. -/
theorem getDialog_self (s : StorageState) (A : Addr) (now : Nat)
    (h : lookupDialog s.dialogs (getDialogPath A A) = none) :
    (getDialog s.dialogs A A now).1.participants = [A, A] ∧
    ∃ v ∈ getDialogs
        { dialogs := (getDialog s.dialogs A A now).2,
          contacts := s.contacts } A,
      v.dialog.participants = [A, A] ∧ v.otherParticipant = A := by
  have hg := getDialog_absent s.dialogs A A now h
  have hpart : (newDialog A A now).participants = [A, A] := by
    simp [newDialog]
  constructor
  · rw [hg]
    exact hpart
  · refine ⟨⟨newDialog A A now, A, none, 0⟩, ?_, hpart, rfl⟩
    rw [hg]
    unfold getDialogs
    rw [(List.perm_insertionSort viewGe _).mem_iff]
    refine List.mem_filterMap.2
      ⟨(getDialogPath A A, newDialog A A now), ?_, ?_⟩
    · exact mem_upsert_self s.dialogs (getDialogPath A A) (newDialog A A now)
    · exact mkDialogView_self A (newDialog A A now) hpart (by simp [newDialog])

/-- C9 witness: the self-dialog property at the concrete identity
`"A"` on the empty store. -/
theorem getDialog_self_witness :
    (getDialog c7Store.dialogs ['A'] ['A'] 0).1.participants =
      [['A'], ['A']] ∧
    ∃ v ∈ getDialogs
        { dialogs := (getDialog c7Store.dialogs ['A'] ['A'] 0).2,
          contacts := c7Store.contacts } ['A'],
      v.dialog.participants = [['A'], ['A']] ∧ v.otherParticipant = ['A'] :=
  getDialog_self c7Store ['A'] 0 (by decide)

/-- An inbound WebSocket frame after JSON decoding: its `type` string
and its `data` field (`none` models an absent or falsy `data`; the
payload content is opaque and modelled by a natural tag). -/
structure WSMessage where
  mtype : List Char
  mdata : Option Nat
deriving DecidableEq

/-- The value passed to a listener by `handleWebSocketMessage`. -/
inductive WSPayload where
  | dataVal : Nat → WSPayload
  | emptyObj : WSPayload
  | wholeMsg : List Char → Option Nat → WSPayload
deriving DecidableEq

/-- The listener registry `wsListeners`: event type to the registered
handlers (handlers are opaque and identified by naturals; absence of a
key is distinct from a key mapping to an empty list, matching
`Map.has`). -/
def ListenerMap := List (List Char × List Nat)

/-- `wsListeners.get(t)`. -/
def lookupListeners (ls : ListenerMap) (t : List Char) :
    Option (List Nat) :=
  match ls with
  | [] => none
  | (t0, hs) :: rest =>
    if t0 = t then some hs else lookupListeners rest t

/-- One `listeners.forEach(listener => listener(p))` pass: the sequence
of (handler, payload) invocations it performs. -/
def dispatchTo (ls : ListenerMap) (t : List Char) (p : WSPayload) :
    List (Nat × WSPayload) :=
  ((lookupListeners ls t).getD []).map (fun h => (h, p))

/-- `ServerClient.handleWebSocketMessage` (with the optional
`onMessageReceived` callback left at its `null` default, as in the
WebSocket `message` event wiring): the sequence of listener invocations
performed for one inbound frame.  The four dedicated branches run
first; the final `Handle other event types` branch runs for any truthy
type whose key is present in the registry — including the four types
already handled above. -/
def handleWebSocketMessage (ls : ListenerMap) (m : WSMessage) :
    List (Nat × WSPayload) :=
  (if m.mtype = ("message").toList then
    dispatchTo ls m.mtype
      (match m.mdata with
        | some n => WSPayload.dataVal n
        | none => WSPayload.emptyObj)
  else []) ++
  (if m.mtype = ("registered").toList ∧ m.mdata.isSome = true then
    dispatchTo ls m.mtype (WSPayload.dataVal (m.mdata.getD 0))
  else []) ++
  (if m.mtype = ("messageSent").toList ∧ m.mdata.isSome = true then
    dispatchTo ls m.mtype (WSPayload.dataVal (m.mdata.getD 0))
  else []) ++
  (if m.mtype = ("messageError").toList ∧ m.mdata.isSome = true then
    dispatchTo ls m.mtype (WSPayload.dataVal (m.mdata.getD 0))
  else []) ++
  (if ¬ m.mtype.isEmpty = true ∧ (lookupListeners ls m.mtype).isSome = true then
    dispatchTo ls m.mtype
      (match m.mdata with
        | some n => WSPayload.dataVal n
        | none => WSPayload.wholeMsg m.mtype m.mdata)
  else [])

/-- Registry with a single handler (id 0) subscribed to `message`. -/
def c1Listeners : ListenerMap := [(("message").toList, [0])]

/-- A well-formed inbound chat frame. -/
def c1Frame : WSMessage := { mtype := ("message").toList, mdata := some 7 }

/-- C1: dispatching a decoded `message` frame through
`handleWebSocketMessage` invokes the single subscribed handler twice
with the same payload — once from the dedicated `message` branch and
once from the trailing `Handle other event types` branch — not exactly
once as the claim and the spec state. -/
theorem handleWebSocketMessage_double :
    handleWebSocketMessage c1Listeners c1Frame =
      [(0, WSPayload.dataVal 7), (0, WSPayload.dataVal 7)] ∧
    ((handleWebSocketMessage c1Listeners c1Frame).filter
      (fun inv => decide (inv.1 = 0))).length = 2 := by
  exact ⟨by decide, by decide⟩

/-- Payload of a correlator-relevant event (`data` object fields the
handlers inspect); an event with falsy `data` is `none` below. -/
structure EvData where
  dataTo : List Char
  dataAddr : List Char
  dataErr : Option (List Char)
deriving DecidableEq

/-- Outcome delivered to the caller of `sendMessage`. -/
inductive SendOutcome where
  | success : EvData → SendOutcome
  | failure : List Char → SendOutcome
  | timedOut : SendOutcome
deriving DecidableEq

/-- State of one pending `sendMessage` await: whether `successHandler`
and `errorHandler` are still subscribed, whether the deadline timer is
still armed, and the outcome delivered so far. -/
structure SendAwait where
  sentSub : Bool
  errSub : Bool
  timerArmed : Bool
  result : Option SendOutcome
deriving DecidableEq

/-- State right after `sendMessage` subscribes its two handlers and
arms its 15-second timer. -/
def initSendAwait : SendAwait :=
  { sentSub := true, errSub := true, timerArmed := true, result := none }

/-- Events that can reach one pending `sendMessage`: a `messageSent`
event, a `messageError` event, or the deadline timer firing. -/
inductive SendEv where
  | sentEvt : Option EvData → SendEv
  | errorEvt : Option EvData → SendEv
  | timerFire : SendEv
deriving DecidableEq

/-- Settling a pending send: `clearTimeout`, `off` both handlers, and
resolve or reject the promise (a promise settles only once, so an
already-present result is kept). -/
def settleSend (s : SendAwait) (o : SendOutcome) : SendAwait :=
  { sentSub := false, errSub := false, timerArmed := false,
    result := match s.result with | some r => some r | none => some o }

/-- One event processed against one pending `sendMessage`, following
`successHandler`, `errorHandler` and the timer callback: the success
handler fires only when subscribed and `data && data.to === to` (recipient `toA`); the
error handler fires on any delivered `messageError`; the timer only
while armed. -/
def sendStep (toA : List Char) (s : SendAwait) : SendEv → SendAwait
  | .sentEvt d =>
    if s.sentSub then
      match d with
      | some dd => if dd.dataTo = toA then settleSend s (.success dd) else s
      | none => s
    else s
  | .errorEvt d =>
    if s.errSub then
      settleSend s (.failure
        (match d with
          | some dd => dd.dataErr.getD ("Failed to send message").toList
          | none => ("Failed to send message").toList))
    else s
  | .timerFire =>
    if s.timerArmed then settleSend s .timedOut else s

/-- A sequence of events processed in arrival order. -/
def runSend (toA : List Char) (s : SendAwait) (evs : List SendEv) :
    SendAwait :=
  evs.foldl (sendStep toA) s

/-- Outcome delivered to the caller of `registerAddress`. -/
inductive RegOutcome where
  | registered : RegOutcome
  | timedOut : RegOutcome
deriving DecidableEq

/-- State of one pending `registerAddress` await. -/
structure RegAwait where
  regSub : Bool
  timerArmed : Bool
  result : Option RegOutcome
deriving DecidableEq

/-- State right after `registerAddress` subscribes its handler and arms
its 10-second timer. -/
def initRegAwait : RegAwait :=
  { regSub := true, timerArmed := true, result := none }

/-- Events that can reach one pending `registerAddress`. -/
inductive RegEv where
  | regEvt : Option EvData → RegEv
  | timerFire : RegEv
deriving DecidableEq

/-- One event processed against one pending `registerAddress`: the
handler resolves only when subscribed and `data && data.address ===
address`; the timer unsubscribes the handler and rejects. -/
def regStep (address : List Char) (s : RegAwait) : RegEv → RegAwait
  | .regEvt d =>
    if s.regSub then
      match d with
      | some dd =>
        if dd.dataAddr = address then
          { regSub := false, timerArmed := false,
            result := match s.result with
              | some r => some r
              | none => some .registered }
        else s
      | none => s
    else s
  | .timerFire =>
    if s.timerArmed then
      { regSub := false, timerArmed := false,
        result := match s.result with
          | some r => some r
          | none => some .timedOut }
    else s

/-- A sequence of events processed in arrival order. -/
def runReg (address : List Char) (s : RegAwait) (evs : List RegEv) :
    RegAwait :=
  evs.foldl (regStep address) s

/-- Reachable-state invariant of a pending send: either untouched, or
settled with all registrations removed and the timer cleared. -/
def sendInv (s : SendAwait) : Prop :=
  s = initSendAwait ∨
  (s.sentSub = false ∧ s.errSub = false ∧ s.timerArmed = false ∧
    s.result.isSome = true)

theorem sendStep_inv (toA : List Char) (s : SendAwait) (e : SendEv)
    (h : sendInv s) : sendInv (sendStep toA s e) := by
  rcases h with h | ⟨h1, h2, h3, h4⟩
  · subst h
    cases e with
    | sentEvt d =>
      cases d with
      | none => exact Or.inl rfl
      | some dd =>
        by_cases hto : dd.dataTo = toA
        · exact Or.inr (by simp [sendStep, settleSend, initSendAwait, hto])
        · exact Or.inl (by simp [sendStep, initSendAwait, hto])
    | errorEvt d =>
      exact Or.inr (by simp [sendStep, settleSend, initSendAwait])
    | timerFire =>
      exact Or.inr (by simp [sendStep, settleSend, initSendAwait])
  · cases e with
    | sentEvt d => exact Or.inr (by simp [sendStep, h1, h2, h3, h4])
    | errorEvt d => exact Or.inr (by simp [sendStep, h1, h2, h3, h4])
    | timerFire => exact Or.inr (by simp [sendStep, h1, h2, h3, h4])

theorem sendStep_settled (toA : List Char) (s : SendAwait) (e : SendEv)
    (h1 : s.sentSub = false) (h2 : s.errSub = false)
    (h3 : s.timerArmed = false) : sendStep toA s e = s := by
  cases e with
  | sentEvt d => simp [sendStep, h1]
  | errorEvt d => simp [sendStep, h2]
  | timerFire => simp [sendStep, h3]

theorem runSend_inv (toA : List Char) (evs : List SendEv) (s : SendAwait)
    (h : sendInv s) : sendInv (runSend toA s evs) := by
  induction evs generalizing s with
  | nil => exact h
  | cons e rest ih => exact ih (sendStep toA s e) (sendStep_inv toA s e h)

theorem runSend_settled_fixed (toA : List Char) (evs : List SendEv)
    (s : SendAwait) (h1 : s.sentSub = false) (h2 : s.errSub = false)
    (h3 : s.timerArmed = false) : runSend toA s evs = s := by
  induction evs with
  | nil => rfl
  | cons e rest ih =>
    unfold runSend at ih ⊢
    rw [List.foldl_cons, sendStep_settled toA s e h1 h2 h3]
    exact ih

/-- Reachable-state invariant of a pending registration. -/
def regInv (s : RegAwait) : Prop :=
  s = initRegAwait ∨
  (s.regSub = false ∧ s.timerArmed = false ∧ s.result.isSome = true)

theorem regStep_inv (address : List Char) (s : RegAwait) (e : RegEv)
    (h : regInv s) : regInv (regStep address s e) := by
  rcases h with h | ⟨h1, h2, h3⟩
  · subst h
    cases e with
    | regEvt d =>
      cases d with
      | none => exact Or.inl rfl
      | some dd =>
        by_cases ha : dd.dataAddr = address
        · exact Or.inr (by simp [regStep, initRegAwait, ha])
        · exact Or.inl (by simp [regStep, initRegAwait, ha])
    | timerFire =>
      exact Or.inr (by simp [regStep, initRegAwait])
  · cases e with
    | regEvt d => exact Or.inr (by simp [regStep, h1, h2, h3])
    | timerFire => exact Or.inr (by simp [regStep, h1, h2, h3])

theorem regStep_settled (address : List Char) (s : RegAwait) (e : RegEv)
    (h1 : s.regSub = false) (h2 : s.timerArmed = false) :
    regStep address s e = s := by
  cases e with
  | regEvt d => simp [regStep, h1]
  | timerFire => simp [regStep, h2]

theorem runReg_settled_fixed (address : List Char) (evs : List RegEv)
    (s : RegAwait) (h1 : s.regSub = false) (h2 : s.timerArmed = false) :
    runReg address s evs = s := by
  induction evs with
  | nil => rfl
  | cons e rest ih =>
    unfold runReg at ih ⊢
    rw [List.foldl_cons, regStep_settled address s e h1 h2]
    exact ih

theorem runReg_inv (address : List Char) (evs : List RegEv) (s : RegAwait)
    (h : regInv s) : regInv (runReg address s evs) := by
  induction evs generalizing s with
  | nil => exact h
  | cons e rest ih => exact ih (regStep address s e) (regStep_inv address s e h)

theorem sendInv_settled (s : SendAwait) (hinv : sendInv s)
    (h : s.result.isSome = true) :
    s.sentSub = false ∧ s.errSub = false ∧ s.timerArmed = false := by
  rcases hinv with hinv | ⟨h1, h2, h3, _⟩
  · subst hinv
    simp [initSendAwait] at h
  · exact ⟨h1, h2, h3⟩

theorem regInv_settled (s : RegAwait) (hinv : regInv s)
    (h : s.result.isSome = true) :
    s.regSub = false ∧ s.timerArmed = false := by
  rcases hinv with hinv | ⟨h1, h2, _⟩
  · subst hinv
    simp [initRegAwait] at h
  · exact ⟨h1, h2⟩

/-- C5: for a pending `sendMessage` and a pending `registerAddress`:
after the deadline timer fires the pending state carries exactly one
outcome (success, error, or timeout), the handler registrations are
removed so that any later event leaves the state untouched (no handler
runs, nothing observable happens), and once an outcome is delivered no
later event sequence can change it. -/
theorem sendAndAwait_exactly_once (toA address : List Char)
    (evs : List SendEv) (e : SendEv) (revs : List RegEv) (re : RegEv) :
    (runSend toA initSendAwait (evs ++ [SendEv.timerFire])).result.isSome
      = true ∧
    sendStep toA (runSend toA initSendAwait (evs ++ [SendEv.timerFire])) e =
      runSend toA initSendAwait (evs ++ [SendEv.timerFire]) ∧
    (∀ o : SendOutcome, ∀ evs2 : List SendEv,
      (runSend toA initSendAwait evs).result = some o →
      (runSend toA (runSend toA initSendAwait evs) evs2).result = some o) ∧
    (runReg address initRegAwait (revs ++ [RegEv.timerFire])).result.isSome
      = true ∧
    regStep address
        (runReg address initRegAwait (revs ++ [RegEv.timerFire])) re =
      runReg address initRegAwait (revs ++ [RegEv.timerFire]) ∧
    (∀ ro : RegOutcome, ∀ revs2 : List RegEv,
      (runReg address initRegAwait revs).result = some ro →
      (runReg address (runReg address initRegAwait revs) revs2).result
        = some ro) := by
  have hsplit : runSend toA initSendAwait (evs ++ [SendEv.timerFire]) =
      sendStep toA (runSend toA initSendAwait evs) SendEv.timerFire := by
    unfold runSend
    rw [List.foldl_append]
    rfl
  have hinv1 : sendInv (runSend toA initSendAwait evs) :=
    runSend_inv toA evs initSendAwait (Or.inl rfl)
  have hsome : (runSend toA initSendAwait
      (evs ++ [SendEv.timerFire])).result.isSome = true := by
    rw [hsplit]
    rcases hinv1 with hinit | ⟨h1, h2, h3, h4⟩
    · rw [hinit]
      simp [sendStep, settleSend, initSendAwait]
    · rw [sendStep_settled toA _ _ h1 h2 h3]
      exact h4
  have hinv2 : sendInv (runSend toA initSendAwait
      (evs ++ [SendEv.timerFire])) :=
    runSend_inv toA (evs ++ [SendEv.timerFire]) initSendAwait (Or.inl rfl)
  obtain ⟨hs1, hs2, hs3⟩ := sendInv_settled _ hinv2 hsome
  have hrsplit : runReg address initRegAwait (revs ++ [RegEv.timerFire]) =
      regStep address (runReg address initRegAwait revs) RegEv.timerFire := by
    unfold runReg
    rw [List.foldl_append]
    rfl
  have hrinv1 : regInv (runReg address initRegAwait revs) :=
    runReg_inv address revs initRegAwait (Or.inl rfl)
  have hrsome : (runReg address initRegAwait
      (revs ++ [RegEv.timerFire])).result.isSome = true := by
    rw [hrsplit]
    rcases hrinv1 with hinit | ⟨h1, h2, h3⟩
    · rw [hinit]
      simp [regStep, initRegAwait]
    · rw [regStep_settled address _ _ h1 h2]
      exact h3
  have hrinv2 : regInv (runReg address initRegAwait
      (revs ++ [RegEv.timerFire])) :=
    runReg_inv address (revs ++ [RegEv.timerFire]) initRegAwait (Or.inl rfl)
  obtain ⟨hr1, hr2⟩ := regInv_settled _ hrinv2 hrsome
  refine ⟨hsome, sendStep_settled toA _ e hs1 hs2 hs3, ?_, hrsome,
    regStep_settled address _ re hr1 hr2, ?_⟩
  · intro o evs2 hres
    have hsomeo : (runSend toA initSendAwait evs).result.isSome = true := by
      rw [hres]
      rfl
    obtain ⟨k1, k2, k3⟩ := sendInv_settled _ hinv1 hsomeo
    rw [runSend_settled_fixed toA evs2 _ k1 k2 k3, hres]
  · intro ro revs2 hres
    have hsomeo : (runReg address initRegAwait revs).result.isSome = true := by
      rw [hres]
      rfl
    obtain ⟨k1, k2⟩ := regInv_settled _ hrinv1 hsomeo
    rw [runReg_settled_fixed address revs2 _ k1 k2, hres]

/-- A concrete matching `messageSent` payload for recipient `"B"`. -/
def c5Ev : EvData :=
  { dataTo := ("B").toList, dataAddr := [], dataErr := none }

/-- C5 witness: with no matching reply, the timer fires, the timeout
outcome is delivered, and a subsequent matching `messageSent` event has
no observable effect. -/
theorem sendAndAwait_exactly_once_witness :
    (runSend ("B").toList initSendAwait [SendEv.timerFire]).result.isSome
      = true ∧
    sendStep ("B").toList
        (runSend ("B").toList initSendAwait [SendEv.timerFire])
        (SendEv.sentEvt (some c5Ev)) =
      runSend ("B").toList initSendAwait [SendEv.timerFire] :=
  ⟨(sendAndAwait_exactly_once ("B").toList [] []
      (SendEv.sentEvt (some c5Ev)) [] RegEv.timerFire).1,
    (sendAndAwait_exactly_once ("B").toList [] []
      (SendEv.sentEvt (some c5Ev)) [] RegEv.timerFire).2.1⟩

/-- Shared connection state of `ServerClient`, as observed between the
event-loop turns of the single-threaded runtime: the `connecting` flag,
whether `wsConnection` exists with `readyState === OPEN`, and a count
of physical `new WebSocket(...)` creations. -/
structure ConnState where
  connecting : Bool
  wsOpen : Bool
  attempts : Nat
deriving DecidableEq

/-- What one caller's synchronous prefix of `ensureConnected` does. -/
inductive EnsureRes where
  | alreadyConnected : EnsureRes
  | waitForAttempt : EnsureRes
  | startedAttempt : EnsureRes
deriving DecidableEq

/-- The synchronous prefix of `ensureConnected`, up to its first
suspension point: return immediately when open; enter the poll loop
(first `await setTimeout`) when `connecting` is set; otherwise set
`connecting` and call `connectWebSocket`, whose executor synchronously
creates the physical socket before suspending.  JavaScript runs this
prefix atomically. -/
def ensureConnectedEntry (s : ConnState) : EnsureRes × ConnState :=
  if s.wsOpen then (.alreadyConnected, s)
  else if s.connecting then (.waitForAttempt, s)
  else (.startedAttempt,
    { s with connecting := true, attempts := s.attempts + 1 })

/-- Result of one iteration of the bounded wait loop. -/
inductive PollRes where
  | connectedNow : PollRes
  | keepWaiting : PollRes
  | loopExit : PollRes
deriving DecidableEq

/-- One resumption of the wait loop of `ensureConnected` after its
500 ms sleep: return when the socket opened, keep polling while the
attempt is still flagged, break out once `connecting` was cleared by
the attempt's outcome. -/
def waitPoll (s : ConnState) : PollRes × ConnState :=
  if s.wsOpen then (.connectedNow, s)
  else if s.connecting then (.keepWaiting, s)
  else (.loopExit, s)

/-- C6: from a state with no open connection and no attempt in flight,
the first `ensureConnected` caller starts exactly one physical
connection attempt; a second caller entering afterwards observes the
`connecting` flag and enters the wait loop instead of starting a
second attempt, and any number of its polls while the attempt is still
in flight leave the state — in particular the attempt count —
unchanged. -/
theorem ensureConnected_single_attempt (s : ConnState)
    (hopen : s.wsOpen = false) (hconn : s.connecting = false) :
    (ensureConnectedEntry s).1 = EnsureRes.startedAttempt ∧
    (ensureConnectedEntry s).2.attempts = s.attempts + 1 ∧
    (ensureConnectedEntry (ensureConnectedEntry s).2).1 =
      EnsureRes.waitForAttempt ∧
    (ensureConnectedEntry (ensureConnectedEntry s).2).2 =
      (ensureConnectedEntry s).2 ∧
    (waitPoll (ensureConnectedEntry s).2).1 = PollRes.keepWaiting ∧
    (∀ n : Nat,
      (fun st => (waitPoll st).2)^[n] (ensureConnectedEntry s).2 =
        (ensureConnectedEntry s).2) := by
  have he : ensureConnectedEntry s = (.startedAttempt,
      { s with connecting := true, attempts := s.attempts + 1 }) := by
    unfold ensureConnectedEntry
    rw [if_neg (by simp [hopen]), if_neg (by simp [hconn])]
  have he2 : ensureConnectedEntry (ensureConnectedEntry s).2 =
      (.waitForAttempt, (ensureConnectedEntry s).2) := by
    rw [he]
    unfold ensureConnectedEntry
    rw [if_neg (by simp [hopen])]
    simp
  have hp : waitPoll (ensureConnectedEntry s).2 =
      (.keepWaiting, (ensureConnectedEntry s).2) := by
    rw [he]
    unfold waitPoll
    rw [if_neg (by simp [hopen])]
    simp
  refine ⟨by rw [he], by rw [he], by rw [he2], by rw [he2], by rw [hp], ?_⟩
  intro n
  exact Function.iterate_fixed (by rw [hp]) n

/-- C6 witness: the single-attempt property at the concrete initial
state (disconnected, idle, zero attempts so far). -/
theorem ensureConnected_single_attempt_witness :
    (ensureConnectedEntry ⟨false, false, 0⟩).1 =
      EnsureRes.startedAttempt ∧
    (ensureConnectedEntry (ensureConnectedEntry ⟨false, false, 0⟩).2).1 =
      EnsureRes.waitForAttempt :=
  ⟨(ensureConnected_single_attempt ⟨false, false, 0⟩ rfl rfl).1,
    (ensureConnected_single_attempt ⟨false, false, 0⟩ rfl rfl).2.2.1⟩
